import Mathlib

/-!
Shallow embedding of the incremental-build core of rivals-workshop-assistant.

Conventions of the embedding:
* `Path` values are modelled as their posix string rendering, so `as_posix`
  is the identity and `Path(s)` is `s`; the claims under test never depend
  on path normalisation.  Where a path's `stem` matters (the anim-hash
  table) a structured `AsePath` is used instead.
* Python `datetime` values are modelled as natural numbers ordered in the
  usual way.
* Python `dict`s are modelled as association lists in insertion order.
  Assignment to an existing key keeps its position (`dictSet`), `pop`
  removes the entry (`dictPop`), and real Python dicts never hold duplicate
  keys, which theorems record as a `Nodup` hypothesis on the key list.
* A dict field that may be absent is an `Option`; `seen_files` may also be
  present but null, hence `Option (Option _)`.
-/

/-- Association-list update modelling Python `d[k] = v`: replaces the value
at the first occurrence of `k`, else appends `(k, v)`. -/
def dictSet {α : Type} (k : String) (v : α) : List (String × α) → List (String × α)
  | [] => [(k, v)]
  | (k', v') :: rest =>
      if k' = k then (k', v) :: rest else (k', v') :: dictSet k v rest

/-- Association-list removal modelling Python `d.pop(k)` (first occurrence;
Python dicts have unique keys so this is the entry for `k`). -/
def dictPop {α : Type} (k : String) : List (String × α) → List (String × α)
  | [] => []
  | (k', v') :: rest =>
      if k' = k then rest else (k', v') :: dictPop k rest

/-- Association-list lookup modelling Python `d[k]` / `d.get(k)` (first
occurrence). -/
def dictGet {α : Type} (k : String) : List (String × α) → Option α
  | [] => none
  | (k', v') :: rest => if k' = k then some v' else dictGet k rest

/-- Lookup with a default, modelling Python `d.get(k, dflt)` and the value
returned by `d.setdefault(k, dflt)`. -/
def dictGetD {α : Type} (k : String) (l : List (String × α)) (dflt : α) : α :=
  (dictGet k l).getD dflt

/-- The keys of an association list, in order. -/
def dictKeys {α : Type} (l : List (String × α)) : List String :=
  l.map (fun kv => kv.1)

/-- One tracked file as passed to `update_dotfile_after_saving`
(`file_handling.File`); only its path is consulted there. -/
structure File where
  path : String
deriving Repr, DecidableEq

/-- The persisted `.assistant` dotfile (`dotfile_mod.py`), restricted to the
fields the core reads and writes.  `none` models an absent dict key;
`seen_files = some none` models a present-but-null value. -/
structure Dotfile where
  processed_time : Option Nat
  seen_files : Option (Option (List String))
  injection_clients : Option (List (String × List String))
  anim_hashes : Option (List (String × List (String × String)))
deriving Repr, DecidableEq

/-- The empty dotfile: a dict with none of the tracked fields. -/
def Dotfile.empty : Dotfile := ⟨none, none, none, none⟩

/-- The normalised seen-files list used by `get_processed_time`:
`dotfile.get(SEEN_FILES_FIELD, [])` followed by the `is None` guard. -/
def seen_files_list (dotfile : Dotfile) : List String :=
  match dotfile.seen_files with
  | some (some xs) => xs
  | _ => []

/-- Embedding of `dotfile_mod.get_processed_time`. -/
def get_processed_time (dotfile : Dotfile) (path : String) : Option Nat :=
  if path ∈ seen_files_list dotfile then dotfile.processed_time else none

/-- Embedding of `dotfile_mod.update_dotfile_after_saving`. -/
def update_dotfile_after_saving
    (dotfile : Dotfile) (now : Nat) (seen_files : List File) : Dotfile :=
  { dotfile with
      processed_time := some now
      seen_files := some (some (seen_files.map (fun file => file.path))) }

/-- Embedding of `dotfile_mod.update_dotfile_injection_clients`.  The source
first materialises the field with `{}` when absent, then either assigns the
client's list (when non-empty) or pops the client's entry (when present). -/
def update_dotfile_injection_clients
    (dotfile : Dotfile) (clientscript : String) (dependencies : List String) :
    Dotfile :=
  let table := dotfile.injection_clients.getD []
  if dependencies.length > 0 then
    { dotfile with injection_clients := some (dictSet clientscript dependencies table) }
  else if clientscript ∈ dictKeys table then
    { dotfile with injection_clients := some (dictPop clientscript table) }
  else
    { dotfile with injection_clients := some table }

/-- Embedding of `dotfile_mod.get_clients_for_injection`: a linear scan over
the table keys, keeping every client whose list contains the queried path. -/
def get_clients_for_injection (dotfile : Dotfile) (injectionscript : String) :
    List String :=
  match dotfile.injection_clients with
  | none => []
  | some table =>
      ((table.filter (fun kv => decide (injectionscript ∈ kv.2))).map (fun kv => kv.1))

/-- Modelled from the spec: `File.is_fresh` lives in `file_handling.py`,
which is not among the sources; per spec section 4.1 the check reports a
file as needing reprocessing when it was never processed (processed time
`None`) or its modified time is strictly later than the processed time. -/
def is_fresh (modified_time : Nat) (processed_time : Option Nat) : Bool :=
  match processed_time with
  | none => true
  | some t => decide (t < modified_time)

/-- One colored tagged frame range as produced by the binary parser
(`aseprite_handling/tags.py`); frame indices are Python ints. -/
structure Tag where
  name : String
  start : Int
  stop : Int
  color : String
deriving Repr, DecidableEq

/-- One window (`aseprite_handling/windows.py`): a named sub-range with
frame indices 1-based relative to its animation's start. -/
structure Window where
  name : String
  start : Int
  stop : Int
deriving Repr, DecidableEq

/-- One animation (`aseprite_handling/anims.py`), restricted to the fields
`Aseprite.get_anims` fills in: name, absolute frame range and windows. -/
structure Anim where
  name : String
  start : Int
  stop : Int
  windows : List Window
deriving Repr, DecidableEq

/-- Embedding of `Aseprite.get_windows_in_frame_range`: keep the tags whose
color is a window color and whose start and end both lie in
`[start, stop]`, then remap each to a window 1-based relative to `start`. -/
def get_windows_in_frame_range
    (window_tag_colors : List String) (tags : List Tag) (start stop : Int) :
    List Window :=
  let tags_in_frame_range := tags.filter (fun w =>
    decide (w.color ∈ window_tag_colors)
      && decide (start ≤ w.start) && decide (w.start ≤ stop)
      && decide (start ≤ w.stop) && decide (w.stop ≤ stop))
  tags_in_frame_range.map (fun tag =>
    ⟨tag.name, tag.start - start + 1, tag.stop - start + 1⟩)

/-- Embedding of `Aseprite.make_anim_with_windows_in_range`, restricted to
the fields the claims concern. -/
def make_anim_with_windows_in_range
    (window_tag_colors : List String) (tags : List Tag)
    (name : String) (start stop : Int) : Anim :=
  ⟨name, start, stop, get_windows_in_frame_range window_tag_colors tags start stop⟩

/-- Embedding of `Aseprite.get_anims`: one animation per tag whose color is
an animation color, in source order; if none, a single animation named
after the file spanning `[0, num_frames - 1]`. -/
def get_anims
    (anim_tag_colors window_tag_colors : List String) (tags : List Tag)
    (num_frames : Int) (file_name : String) : List Anim :=
  let tag_anims :=
    (tags.filter (fun tag => decide (tag.color ∈ anim_tag_colors))).map
      (fun tag =>
        make_anim_with_windows_in_range window_tag_colors tags tag.name tag.start tag.stop)
  if tag_anims.isEmpty then
    [make_anim_with_windows_in_range window_tag_colors tags file_name 0 (num_frames - 1)]
  else
    tag_anims

/-- A filesystem path with its structure exposed: the folder names from the
root down, the stem and the suffix.  `pathlib.Path.stem` is the `stem`
field; two such paths are the same file only if all components agree. -/
structure AsePath where
  parents : List String
  stem : String
  suffix : String
deriving Repr, DecidableEq

/-- Embedding of the anim-hash scope selection in `read_aseprite`: the value
of `dotfile.setdefault("anim_hashes", {}).setdefault(path.stem, {})`,
i.e. the table entry keyed by the path's stem, defaulting to empty. -/
def anim_hashes_for (dotfile : Dotfile) (path : AsePath) :
    List (String × String) :=
  dictGetD path.stem (dotfile.anim_hashes.getD []) []

/-- Modelled from the spec: the hash cache's `record` operation (spec 4.3,
"`record` overwrites the entry") is not among the sources; it overwrites
the fingerprint stored for the animation name inside the scope that
`read_aseprite` selects, which the source keys by `path.stem`. -/
def record_anim_hash (dotfile : Dotfile) (path : AsePath)
    (anim_name fingerprint : String) : Dotfile :=
  let table := dotfile.anim_hashes.getD []
  let scope := dictGetD path.stem table []
  { dotfile with
      anim_hashes := some (dictSet path.stem (dictSet anim_name fingerprint scope) table) }

/-- Embedding of `Aseprite.get_sprite_base_name`: the names of the
subfolders below the anims folder, root to leaf, then the stem, joined
with underscores. -/
def get_sprite_base_name (path : AsePath) : String :=
  String.intercalate "_" (path.parents ++ [path.stem])

/-- The export destination file name built in `Aseprite.save`:
`<base_name>_strip<num_frames>.png`. -/
def strip_dest_name (base_name : String) (num_frames : Nat) : String :=
  base_name ++ "_strip" ++ toString num_frames ++ ".png"

/-- Whether a file name in the sprites folder matches the glob
`<base_name>_strip*.png` used by `Aseprite._delete_old_save`.  File names
inside one folder contain no path separator, so the glob star matches any
infix: prefix `<base_name>_strip`, suffix `.png`, long enough for both
(characters are compared on the strings' underlying character lists). -/
def matches_strip_glob (base_name file_name : String) : Bool :=
  (base_name ++ "_strip").data.isPrefixOf file_name.data
    && (".png").data.isSuffixOf file_name.data
    && decide (base_name.length + 10 ≤ file_name.length)

/-- Embedding of `Aseprite._delete_old_save`: remove from the sprites
folder every file matching `<base_name>_strip*.png`. -/
def delete_old_save (base_name : String) (sprites_folder : List String) :
    List String :=
  sprites_folder.filter (fun file_name => !(matches_strip_glob base_name file_name))

/-- Embedding of the filesystem effect of `Aseprite.save`: first
`_delete_old_save`, then the exporter writes
`<base_name>_strip<len(frames)>.png` into the sprites folder. -/
def aseprite_save (path : AsePath) (frames : List Nat)
    (sprites_folder : List String) : List String :=
  delete_old_save (get_sprite_base_name path) sprites_folder
    ++ [strip_dest_name (get_sprite_base_name path) frames.length]

/-! Helper lemmas about the association-list dictionary model. -/

theorem dictKeys_cons {α : Type} (k : String) (v : α) (l : List (String × α)) :
    dictKeys ((k, v) :: l) = k :: dictKeys l := rfl

theorem mem_dictKeys_of_mem {α : Type} {e : String × α} {l : List (String × α)}
    (h : e ∈ l) : e.1 ∈ dictKeys l :=
  List.mem_map_of_mem (fun kv => kv.1) h

theorem dictSet_self_mem {α : Type} (k : String) (v : α) (l : List (String × α)) :
    (k, v) ∈ dictSet k v l := by
  induction l with
  | nil => simp [dictSet]
  | cons hd tl ih =>
      obtain ⟨k', v'⟩ := hd
      by_cases h : k' = k
      · subst h
        simp [dictSet]
      · simp [dictSet, h, ih]

theorem dictGet_dictSet_self {α : Type} (k : String) (v : α) (l : List (String × α)) :
    dictGet k (dictSet k v l) = some v := by
  induction l with
  | nil => simp [dictSet, dictGet]
  | cons hd tl ih =>
      obtain ⟨k', v'⟩ := hd
      by_cases h : k' = k
      · subst h
        simp [dictSet, dictGet]
      · simp [dictSet, dictGet, h, ih]

theorem dictGet_dictSet_ne {α : Type} {k k' : String} (h : k ≠ k') (v : α)
    (l : List (String × α)) :
    dictGet k' (dictSet k v l) = dictGet k' l := by
  induction l with
  | nil => simp [dictSet, dictGet, h]
  | cons hd tl ih =>
      obtain ⟨k'', v''⟩ := hd
      by_cases h2 : k'' = k
      · subst h2
        simp [dictSet, dictGet, h]
      · by_cases h3 : k'' = k'
        · subst h3
          simp [dictSet, dictGet, h2]
        · simp [dictSet, dictGet, h2, h3, ih]

theorem mem_dictSet {α : Type} {e : String × α} {k : String} {v : α}
    {l : List (String × α)} (h : e ∈ dictSet k v l) : e ∈ l ∨ e.2 = v := by
  induction l with
  | nil =>
      right
      have he : e = (k, v) := by simpa [dictSet] using h
      rw [he]
  | cons hd tl ih =>
      obtain ⟨k', v'⟩ := hd
      by_cases h2 : k' = k
      · subst h2
        rw [show dictSet k' v ((k', v') :: tl) = (k', v) :: tl by simp [dictSet]] at h
        rcases List.mem_cons.1 h with rfl | h3
        · right
          rfl
        · left
          exact List.mem_cons_of_mem _ h3
      · rw [show dictSet k v ((k', v') :: tl) = (k', v') :: dictSet k v tl by
            simp [dictSet, h2]] at h
        rcases List.mem_cons.1 h with rfl | h3
        · left
          exact List.mem_cons_self _ _
        · rcases ih h3 with h4 | h4
          · left
            exact List.mem_cons_of_mem _ h4
          · right
            exact h4

theorem mem_of_mem_dictPop {α : Type} {e : String × α} {k : String}
    {l : List (String × α)} (h : e ∈ dictPop k l) : e ∈ l := by
  induction l with
  | nil =>
      simp [dictPop] at h
  | cons hd tl ih =>
      obtain ⟨k', v'⟩ := hd
      by_cases h2 : k' = k
      · subst h2
        rw [show dictPop k' ((k', v') :: tl) = tl by simp [dictPop]] at h
        exact List.mem_cons_of_mem _ h
      · rw [show dictPop k ((k', v') :: tl) = (k', v') :: dictPop k tl by
            simp [dictPop, h2]] at h
        rcases List.mem_cons.1 h with rfl | h3
        · exact List.mem_cons_self _ _
        · exact List.mem_cons_of_mem _ (ih h3)

theorem not_mem_dictKeys_dictPop {α : Type} {k : String} {l : List (String × α)}
    (hnd : (dictKeys l).Nodup) : k ∉ dictKeys (dictPop k l) := by
  induction l with
  | nil => simp [dictPop, dictKeys]
  | cons hd tl ih =>
      obtain ⟨k', v'⟩ := hd
      rw [dictKeys_cons] at hnd
      obtain ⟨hk', hnd'⟩ := List.nodup_cons.1 hnd
      by_cases h2 : k' = k
      · subst h2
        simpa [dictPop] using hk'
      · simp only [dictPop, if_neg h2, dictKeys_cons, List.mem_cons]
        push_neg
        exact ⟨fun h => (h2 h.symm).elim, ih hnd'⟩

/-- C1: a tracked file is reported stale (needs reprocessing) if and only
if its path is not among the persisted seen files, or its modified time is
strictly later than the processed time recorded by the previous successful
run; `get_processed_time` returns `none` exactly for unseen paths and the
stored processed time otherwise. -/
theorem C1_staleness_iff (dotfile : Dotfile) (path : String)
    (modified_time t : Nat) (h : dotfile.processed_time = some t) :
    is_fresh modified_time (get_processed_time dotfile path) = true ↔
      (path ∉ seen_files_list dotfile ∨ t < modified_time) := by
  unfold get_processed_time
  by_cases hp : path ∈ seen_files_list dotfile
  · simp [hp, h, is_fresh]
  · simp [hp, is_fresh]

/-- Witness for C1 at a concrete dotfile: path "a" was seen at processed
time 5 and modified at time 9, so the check reports it stale. -/
theorem C1_staleness_iff_witness :
    (Dotfile.mk (some 5) (some (some ["a"])) none none).processed_time = some 5 ∧
      (is_fresh 9
          (get_processed_time (Dotfile.mk (some 5) (some (some ["a"])) none none) "a") =
          true ↔
        ("a" ∉ seen_files_list (Dotfile.mk (some 5) (some (some ["a"])) none none) ∨
          5 < 9)) :=
  ⟨rfl, C1_staleness_iff (Dotfile.mk (some 5) (some (some ["a"])) none none) "a" 9 5 rfl⟩

/-- C9: `update_dotfile_after_saving` overwrites the seen-files list with
exactly the posix paths of the given files and sets the processed time to
the given timestamp; afterwards `get_processed_time` returns `none` for
every path absent from that list and the new timestamp for every path in
it. -/
theorem C9_seen_files_overwrite (dotfile : Dotfile) (now : Nat)
    (files : List File) (p : String) :
    (update_dotfile_after_saving dotfile now files).seen_files =
        some (some (files.map (fun file => file.path)))
      ∧ (update_dotfile_after_saving dotfile now files).processed_time = some now
      ∧ (p ∉ files.map (fun file => file.path) →
          get_processed_time (update_dotfile_after_saving dotfile now files) p = none)
      ∧ (p ∈ files.map (fun file => file.path) →
          get_processed_time (update_dotfile_after_saving dotfile now files) p = some now) := by
  refine ⟨rfl, rfl, ?_, ?_⟩ <;>
    intro hp <;>
    simp [get_processed_time, seen_files_list, update_dotfile_after_saving, hp]

/-- Witness for C9 at a concrete dotfile: path "old" was seen before the
update but is absent from the new list, so it is no longer recorded. -/
theorem C9_seen_files_overwrite_witness :
    ("old" ∉ [File.mk "new"].map (fun file => file.path)) ∧
      get_processed_time
          (update_dotfile_after_saving
            (Dotfile.mk (some 1) (some (some ["old"])) none none) 7 [File.mk "new"])
          "old" = none :=
  ⟨by decide,
    (C9_seen_files_overwrite (Dotfile.mk (some 1) (some (some ["old"])) none none)
        7 [File.mk "new"] "old").2.2.1 (by decide)⟩

/-- C10: on a dotfile with no injection-clients table the reverse query
returns the empty list for any path, and an absent or null seen-files
field makes `get_processed_time` return `none` rather than fail. -/
theorem C10_missing_state_totality (dotfile : Dotfile) (p : String) :
    (dotfile.injection_clients = none → get_clients_for_injection dotfile p = [])
      ∧ ((dotfile.seen_files = none ∨ dotfile.seen_files = some none) →
          get_processed_time dotfile p = none) := by
  constructor
  · intro h
    simp [get_clients_for_injection, h]
  · intro h
    rcases h with h | h <;> simp [get_processed_time, seen_files_list, h]

/-- Witness for C10 at the empty dotfile. -/
theorem C10_missing_state_totality_witness :
    (Dotfile.empty.injection_clients = none ∧
        get_clients_for_injection Dotfile.empty "lib.gml" = [])
      ∧ ((Dotfile.empty.seen_files = none ∨ Dotfile.empty.seen_files = some none) ∧
          get_processed_time Dotfile.empty "lib.gml" = none) :=
  ⟨⟨rfl, (C10_missing_state_totality Dotfile.empty "lib.gml").1 rfl⟩,
    ⟨Or.inl rfl, (C10_missing_state_totality Dotfile.empty "lib.gml").2 (Or.inl rfl)⟩⟩

/-- C4: after recording a client with a dependency list, the reverse query
includes that client for every recorded dependency; after recording the
same client with an empty list it is excluded for every path; and in
general the reverse query returns exactly the clients whose currently
recorded dependency list contains the queried path. -/
theorem C4_reverse_query (dotfile : Dotfile) (client path : String)
    (deps : List String)
    (hnd : (dictKeys (dotfile.injection_clients.getD [])).Nodup) :
    (path ∈ deps →
        client ∈ get_clients_for_injection
          (update_dotfile_injection_clients dotfile client deps) path)
      ∧ client ∉ get_clients_for_injection
          (update_dotfile_injection_clients dotfile client []) path
      ∧ (∀ q, q ∈ get_clients_for_injection dotfile path ↔
          ∃ ds, (q, ds) ∈ dotfile.injection_clients.getD [] ∧ path ∈ ds) := by
  refine ⟨?_, ?_, ?_⟩
  · intro hp
    have hlen : deps.length > 0 := List.length_pos.2 (List.ne_nil_of_mem hp)
    simp only [update_dotfile_injection_clients, if_pos hlen, get_clients_for_injection]
    exact List.mem_map.2
      ⟨(client, deps),
        List.mem_filter.2
          ⟨dictSet_self_mem client deps (dotfile.injection_clients.getD []),
            by simpa using hp⟩,
        rfl⟩
  · intro hmem
    simp only [update_dotfile_injection_clients, List.length_nil, gt_iff_lt,
      lt_self_iff_false, if_false] at hmem
    by_cases hk : client ∈ dictKeys (dotfile.injection_clients.getD [])
    · rw [if_pos hk] at hmem
      simp only [get_clients_for_injection, List.mem_map] at hmem
      obtain ⟨kv, hkv, hfst⟩ := hmem
      have hkv' : kv ∈ dictPop client (dotfile.injection_clients.getD []) :=
        List.mem_of_mem_filter hkv
      exact not_mem_dictKeys_dictPop hnd (hfst ▸ mem_dictKeys_of_mem hkv')
    · rw [if_neg hk] at hmem
      simp only [get_clients_for_injection, List.mem_map] at hmem
      obtain ⟨kv, hkv, hfst⟩ := hmem
      exact hk (hfst ▸ mem_dictKeys_of_mem (List.mem_of_mem_filter hkv))
  · intro q
    cases hdot : dotfile.injection_clients with
    | none => simp [get_clients_for_injection, hdot]
    | some table =>
        simp only [get_clients_for_injection, hdot, Option.getD_some, List.mem_map,
          List.mem_filter, decide_eq_true_eq]
        constructor
        · rintro ⟨⟨a, b⟩, ⟨hmem, hin⟩, rfl⟩
          exact ⟨b, hmem, hin⟩
        · rintro ⟨ds, hmem, hin⟩
          exact ⟨(q, ds), ⟨hmem, hin⟩, rfl⟩

/-- Witness for C4: recording "attack.gml" with dependency "combo_lib"
makes the reverse query return it; recording it with no dependencies
removes it. -/
theorem C4_reverse_query_witness :
    ("combo_lib" ∈ ["combo_lib"]) ∧
      "attack.gml" ∈ get_clients_for_injection
        (update_dotfile_injection_clients Dotfile.empty "attack.gml" ["combo_lib"])
        "combo_lib" ∧
      "attack.gml" ∉ get_clients_for_injection
        (update_dotfile_injection_clients Dotfile.empty "attack.gml" []) "combo_lib" :=
  ⟨by decide,
    (C4_reverse_query Dotfile.empty "attack.gml" "combo_lib" ["combo_lib"]
        (by simp [Dotfile.empty, dictKeys])).1 (by decide),
    (C4_reverse_query Dotfile.empty "attack.gml" "combo_lib" ["combo_lib"]
        (by simp [Dotfile.empty, dictKeys])).2.1⟩

/-- C5: updating the injection-clients table with an empty dependency list
removes the client's entry, updating with a non-empty list replaces the
entry wholesale, and the table never acquires an entry with an empty
dependency list. -/
theorem C5_entry_invariant (dotfile : Dotfile) (client : String)
    (deps : List String)
    (hnd : (dictKeys (dotfile.injection_clients.getD [])).Nodup) :
    (deps = [] → ∀ ds, (client, ds) ∉
        (update_dotfile_injection_clients dotfile client deps).injection_clients.getD [])
      ∧ (deps ≠ [] → dictGet client
          ((update_dotfile_injection_clients dotfile client deps).injection_clients.getD [])
          = some deps)
      ∧ ((∀ e ∈ dotfile.injection_clients.getD [], e.2 ≠ []) →
          ∀ e ∈ (update_dotfile_injection_clients dotfile client deps).injection_clients.getD [],
            e.2 ≠ []) := by
  refine ⟨?_, ?_, ?_⟩
  · rintro rfl ds hmem
    simp only [update_dotfile_injection_clients, List.length_nil, gt_iff_lt,
      lt_self_iff_false, if_false] at hmem
    by_cases hk : client ∈ dictKeys (dotfile.injection_clients.getD [])
    · rw [if_pos hk] at hmem
      exact not_mem_dictKeys_dictPop hnd (mem_dictKeys_of_mem hmem)
    · rw [if_neg hk] at hmem
      exact hk (mem_dictKeys_of_mem hmem)
  · intro hne
    have hlen : deps.length > 0 := List.length_pos.2 hne
    simp only [update_dotfile_injection_clients, if_pos hlen]
    exact dictGet_dictSet_self client deps (dotfile.injection_clients.getD [])
  · intro hall e he
    by_cases hlen : deps.length > 0
    · simp only [update_dotfile_injection_clients, if_pos hlen] at he
      rcases mem_dictSet he with h | h
      · exact hall e h
      · rw [h]
        exact List.length_pos.1 hlen
    · have hdeps : deps = [] := List.eq_nil_of_length_eq_zero (by omega)
      subst hdeps
      simp only [update_dotfile_injection_clients, List.length_nil, gt_iff_lt,
        lt_self_iff_false, if_false] at he
      by_cases hk : client ∈ dictKeys (dotfile.injection_clients.getD [])
      · rw [if_pos hk] at he
        exact hall e (mem_of_mem_dictPop he)
      · rw [if_neg hk] at he
        exact hall e he

/-- Witness for C5: removing the only entry of a one-entry table, and
replacing an entry wholesale with a new list. -/
theorem C5_entry_invariant_witness :
    (("a.gml", ["x"]) ∉
        (update_dotfile_injection_clients
          (Dotfile.mk none none (some [("a.gml", ["x"])]) none) "a.gml"
          []).injection_clients.getD [])
      ∧ dictGet "a.gml"
          ((update_dotfile_injection_clients
            (Dotfile.mk none none (some [("a.gml", ["x"])]) none) "a.gml"
            ["y", "z"]).injection_clients.getD []) = some ["y", "z"] :=
  ⟨(C5_entry_invariant (Dotfile.mk none none (some [("a.gml", ["x"])]) none)
        "a.gml" [] (by simp [dictKeys])).1 rfl ["x"],
    (C5_entry_invariant (Dotfile.mk none none (some [("a.gml", ["x"])]) none)
        "a.gml" ["y", "z"] (by simp [dictKeys])).2.1 (by decide)⟩

/-- C2: decomposition produces one animation per tag whose color is an
animation color, in source order, copying name, start and end; when no tag
color matches it produces exactly one animation named after the file
spanning frames 0 to `num_frames - 1`. -/
theorem C2_decompose_contract (anim_tag_colors window_tag_colors : List String)
    (tags : List Tag) (num_frames : Int) (file_name : String) :
    (get_anims anim_tag_colors window_tag_colors tags num_frames file_name).map
        (fun a => (a.name, a.start, a.stop)) =
      if ((tags.filter (fun tag => decide (tag.color ∈ anim_tag_colors))).map
            (fun tag => (tag.name, tag.start, tag.stop))).isEmpty then
        [(file_name, 0, num_frames - 1)]
      else
        (tags.filter (fun tag => decide (tag.color ∈ anim_tag_colors))).map
          (fun tag => (tag.name, tag.start, tag.stop)) := by
  unfold get_anims
  by_cases h : tags.filter (fun tag => decide (tag.color ∈ anim_tag_colors)) = []
  · simp [h, make_anim_with_windows_in_range]
  · simp [h, make_anim_with_windows_in_range, List.map_map, Function.comp]

/-- C3 as stated is false: a malformed window tag with `start > end` whose
endpoints both lie in the animation range yields a window with
`start > end`, violating the claimed `window.start <= window.end`. -/
theorem C3_counterexample :
    ((Tag.mk "w" 3 2 "red").color ∈ ["red"])
      ∧ ((1 : Int) ≤ (Tag.mk "w" 3 2 "red").start)
      ∧ ((Tag.mk "w" 3 2 "red").start ≤ 5)
      ∧ ((1 : Int) ≤ (Tag.mk "w" 3 2 "red").stop)
      ∧ ((Tag.mk "w" 3 2 "red").stop ≤ 5)
      ∧ ¬ (∀ w ∈ get_windows_in_frame_range ["red"] [Tag.mk "w" 3 2 "red"] 1 5,
            1 ≤ w.start ∧ w.start ≤ w.stop ∧ w.stop ≤ 5 - 1 + 1) := by
  decide

/-- C3 amended: for every well-formed window tag (`start <= end`) with a
window color whose start and end both lie in the animation range `[a, b]`,
the produced window has `start = s - a + 1`, `end = e - a + 1` and
satisfies `1 <= start <= end <= b - a + 1`. -/
theorem C3_window_remapping (window_tag_colors : List String) (tags : List Tag)
    (a b : Int) (t : Tag) (ht : t ∈ tags) (hc : t.color ∈ window_tag_colors)
    (h1 : a ≤ t.start) (h2 : t.start ≤ b) (h3 : a ≤ t.stop) (h4 : t.stop ≤ b)
    (hw : t.start ≤ t.stop) :
    ∃ w ∈ get_windows_in_frame_range window_tag_colors tags a b,
      w.name = t.name ∧ w.start = t.start - a + 1 ∧ w.stop = t.stop - a + 1 ∧
        1 ≤ w.start ∧ w.start ≤ w.stop ∧ w.stop ≤ b - a + 1 := by
  refine ⟨⟨t.name, t.start - a + 1, t.stop - a + 1⟩, ?_, rfl, rfl, rfl, ?_, ?_, ?_⟩
  · unfold get_windows_in_frame_range
    refine List.mem_map.2 ⟨t, List.mem_filter.2 ⟨ht, ?_⟩, rfl⟩
    simp [hc, h1, h2, h3, h4]
  · show (1 : Int) ≤ t.start - a + 1
    omega
  · show t.start - a + 1 ≤ t.stop - a + 1
    omega
  · show t.stop - a + 1 ≤ b - a + 1
    omega

/-- Witness for the amended C3 at the spec's end-to-end example: a "hitbox"
tag on frames 1..2 inside animation [0, 3] becomes the window [2, 3]. -/
theorem C3_window_remapping_witness :
    ∃ w ∈ get_windows_in_frame_range ["blue"] [Tag.mk "hitbox" 1 2 "blue"] 0 3,
      w.name = (Tag.mk "hitbox" 1 2 "blue").name ∧
        w.start = (Tag.mk "hitbox" 1 2 "blue").start - 0 + 1 ∧
        w.stop = (Tag.mk "hitbox" 1 2 "blue").stop - 0 + 1 ∧
        1 ≤ w.start ∧ w.start ≤ w.stop ∧ w.stop ≤ 3 - 0 + 1 :=
  C3_window_remapping ["blue"] [Tag.mk "hitbox" 1 2 "blue"] 0 3
    (Tag.mk "hitbox" 1 2 "blue") (by decide) (by decide)
    (by decide) (by decide) (by decide) (by decide) (by decide)

/-- C7: a window-colored tag whose start or end lies outside the animation
range contributes no window at all, wherever it sits in the tag list: the
decomposition of the list with the tag equals that of the list without
it. -/
theorem C7_straddling_excluded (window_tag_colors : List String)
    (pre post : List Tag) (a b : Int) (t : Tag)
    (hc : t.color ∈ window_tag_colors)
    (hout : t.start < a ∨ b < t.start ∨ t.stop < a ∨ b < t.stop) :
    get_windows_in_frame_range window_tag_colors (pre ++ t :: post) a b =
      get_windows_in_frame_range window_tag_colors (pre ++ post) a b := by
  have hpred : (decide (t.color ∈ window_tag_colors)
      && decide (a ≤ t.start) && decide (t.start ≤ b)
      && decide (a ≤ t.stop) && decide (t.stop ≤ b)) = false := by
    rw [Bool.eq_false_iff]
    intro htrue
    simp only [Bool.and_eq_true, decide_eq_true_eq] at htrue
    obtain ⟨⟨⟨⟨-, h1⟩, h2⟩, h3⟩, h4⟩ := htrue
    rcases hout with h | h | h | h <;> omega
  unfold get_windows_in_frame_range
  simp only [List.filter_append, List.filter_cons, hpred, Bool.false_eq_true,
    if_false]

/-- Witness for C7: a tag spanning frames 0..9 straddles the animation
[1, 5] and is excluded, leaving only the in-range tag's window. -/
theorem C7_straddling_excluded_witness :
    ((Tag.mk "w" 0 9 "red").color ∈ ["red"]) ∧
      ((Tag.mk "w" 0 9 "red").start < 1 ∨ (5 : Int) < (Tag.mk "w" 0 9 "red").start ∨
        (Tag.mk "w" 0 9 "red").stop < 1 ∨ (5 : Int) < (Tag.mk "w" 0 9 "red").stop) ∧
      get_windows_in_frame_range ["red"]
          ([] ++ Tag.mk "w" 0 9 "red" :: [Tag.mk "x" 1 2 "red"]) 1 5 =
        get_windows_in_frame_range ["red"] ([] ++ [Tag.mk "x" 1 2 "red"]) 1 5 :=
  ⟨by decide, Or.inl (by decide),
    C7_straddling_excluded ["red"] [] [Tag.mk "x" 1 2 "red"] 1 5
      (Tag.mk "w" 0 9 "red") (by decide) (Or.inl (by decide))⟩

/-- C6 as stated is false: the persisted anim-hash table is keyed by the
path's stem, so two distinct asset paths with the same stem share one
scope; recording under `anims/a/player.ase` changes what is looked up
under `anims/b/player.ase`. -/
theorem C6_counterexample :
    (AsePath.mk ["anims", "a"] "player" ".ase" ≠ AsePath.mk ["anims", "b"] "player" ".ase")
      ∧ anim_hashes_for
          (record_anim_hash Dotfile.empty
            (AsePath.mk ["anims", "a"] "player" ".ase") "idle" "h1")
          (AsePath.mk ["anims", "b"] "player" ".ase")
        ≠ anim_hashes_for Dotfile.empty (AsePath.mk ["anims", "b"] "player" ".ase") := by
  decide

/-- C6 amended: the anim-hash table is scoped per asset path stem, so for
any two assets whose path stems differ, recording a fingerprint under one
asset's scope never changes what is looked up under the other's. -/
theorem C6_hash_scoping (dotfile : Dotfile) (p1 p2 : AsePath)
    (anim_name fingerprint : String) (h : p1.stem ≠ p2.stem) :
    anim_hashes_for (record_anim_hash dotfile p1 anim_name fingerprint) p2 =
      anim_hashes_for dotfile p2 := by
  unfold anim_hashes_for record_anim_hash dictGetD
  rw [Option.getD_some, dictGet_dictSet_ne h]

/-- Witness for the amended C6: recording under stem "player" leaves the
scope of stem "enemy" unchanged. -/
theorem C6_hash_scoping_witness :
    ((AsePath.mk ["anims"] "player" ".ase").stem ≠
        (AsePath.mk ["anims"] "enemy" ".ase").stem) ∧
      anim_hashes_for
          (record_anim_hash Dotfile.empty (AsePath.mk ["anims"] "player" ".ase")
            "idle" "h1")
          (AsePath.mk ["anims"] "enemy" ".ase") =
        anim_hashes_for Dotfile.empty (AsePath.mk ["anims"] "enemy" ".ase") :=
  ⟨by decide,
    C6_hash_scoping Dotfile.empty (AsePath.mk ["anims"] "player" ".ase")
      (AsePath.mk ["anims"] "enemy" ".ase") "idle" "h1" (by decide)⟩

/-- C8: exporting writes `<base_name>_strip<frame_count>.png` where the
frame count is the asset's number of frames, after removing every existing
file matching `<base_name>_strip*.png` from the sprites folder. -/
theorem C8_export_convention (path : AsePath) (frames : List Nat)
    (sprites_folder : List String) :
    aseprite_save path frames sprites_folder =
        delete_old_save (get_sprite_base_name path) sprites_folder
          ++ [get_sprite_base_name path ++ "_strip" ++ toString frames.length ++ ".png"]
      ∧ (∀ f ∈ sprites_folder,
          matches_strip_glob (get_sprite_base_name path) f = true →
            f ∉ delete_old_save (get_sprite_base_name path) sprites_folder) := by
  constructor
  · rfl
  · intro f hf hmatch hmem
    have := (List.mem_filter.1 hmem).2
    rw [hmatch] at this
    exact Bool.false_ne_true (by simpa using this.symm)

/-- Witness for C8: a stale strip of "hero" with 7 frames is removed when
the 3-frame strip is exported. -/
theorem C8_export_convention_witness :
    ("chars_hero_strip7.png" ∈ ["chars_hero_strip7.png", "other.png"]) ∧
      (matches_strip_glob (get_sprite_base_name (AsePath.mk ["chars"] "hero" ".ase"))
          "chars_hero_strip7.png" = true) ∧
      "chars_hero_strip7.png" ∉
        delete_old_save (get_sprite_base_name (AsePath.mk ["chars"] "hero" ".ase"))
          ["chars_hero_strip7.png", "other.png"] :=
  ⟨by decide, by decide,
    (C8_export_convention (AsePath.mk ["chars"] "hero" ".ase") [10, 20, 30]
        ["chars_hero_strip7.png", "other.png"]).2
      "chars_hero_strip7.png" (by decide) (by decide)⟩
